import Mathlib

set_option maxRecDepth 8000
set_option maxHeartbeats 1000000

/-!
Verification of the CBOR structural decoder of this repository.

The decoder is a pure function from a byte slice to a decoded item plus the
unconsumed remainder of the slice. The embedding below follows the source
function by function: parse (the major-type dispatcher), _parseUInt,
_parseNegInt, __parseByteString (definite and indefinite byte strings),
_parseTextString, _parseArray, _parseMap, _parseFloat, _parseTagged,
_mergeChunks, _parseBigInt, readBigInt, bigintToNum and the error helper.

Modelling decisions, each noted at its definition:
- a Uint8Array is a list of naturals; out-of-range indexing yields none
  (undefined), and the JS coercions of undefined are reproduced (undefined
  masked by a bit mask is 0; BigInt(undefined) throws a TypeError);
- the while loops of the source can run forever on some truncated inputs,
  so every recursive function takes a fuel argument and returns a timeout
  marker when the fuel runs out; fuel only ever makes the function stop
  earlier, never changes a delivered result;
- thrown strings are modelled by their exact text.
-/

/-- Byte streams (JS Uint8Array) modelled as lists of naturals. Real
Uint8Array entries are below 256; theorems add that bound where needed. -/
abbrev Bytes := List Nat

/-- Width in bytes of an encoded length or value: the TS SizeBytes type
(0, 1, 2, 4 or 8). -/
abbrev SizeBytes := Nat

/-- Values thrown by the decoder code. The source throws plain strings
(strErr); BigInt(undefined), reached when readBigInt indexes past the end
of the stream, throws a TypeError; a DataView read past the end of the
buffer throws a RangeError. -/
inductive JSErr where
  | strErr (msg : String)
  | typeError
  | rangeError
deriving Repr, DecidableEq

/-- Outcome of running a piece of decoder code: a returned value, a thrown
error, or the fuel-exhaustion marker timeout. -/
inductive JSOut (α : Type) where
  | ok (val : α)
  | thrown (e : JSErr)
  | timeout
deriving Repr

/-- Sequencing of decoder steps: a thrown error or a timeout propagates. -/
def JSOut.bind : JSOut α → (α → JSOut β) → JSOut β
  | .ok a, f => f a
  | .thrown e, _ => .thrown e
  | .timeout, _ => .timeout

/-- Indexing a Uint8Array: out-of-range indexing yields undefined (none). -/
def jsIdx (s : Bytes) (i : Nat) : Option Nat := s[i]?

/-- The JS expression masking x with a bit mask where x may be undefined:
ToInt32 of undefined is 0, so undefined masked by anything is 0. -/
def jsAnd (x : Option Nat) (m : Nat) : Nat :=
  match x with
  | some v => v &&& m
  | none => 0

/-- Negation of the guard of the while loops of the source. The guard reads
stream[0] != 0xff, so the loop stops exactly when the first byte exists and
is the break marker (undefined != 0xff is true and the loop keeps going). -/
def headIsBreak (s : Bytes) : Bool :=
  match jsIdx s 0 with
  | some 255 => true
  | _ => false

/-- Lowercase hexadecimal digit, as produced by JS toString with radix 16. -/
def hexDigit (n : Nat) : Char :=
  if n < 10 then Char.ofNat (48 + n) else Char.ofNat (87 + n)

/-- Hex digits of n, most significant first. The first argument is fuel;
n itself suffices since the value is divided by 16 at each step. -/
def toHexCore : Nat → Nat → List Char
  | 0, _ => []
  | _ + 1, 0 => []
  | fuel + 1, n + 1 => toHexCore fuel ((n + 1) / 16) ++ [hexDigit ((n + 1) % 16)]

/-- JS Number.prototype.toString with radix 16: lowercase, unpadded, and 0
prints as the single digit 0. -/
def toHex (n : Nat) : String :=
  if n = 0 then "0" else String.mk (toHexCore n n)

/-- Message built by the error helper of the source: a template naming the
expected item kind and the received header byte in hex. The received
argument is the optional first byte of the stream; every reachable call
site passes an actual byte (when stream[0] is undefined the masked length
field is 0, which never fails a length check), so the none case below is
never exercised. -/
def errMsg (expected : String) (received : Option Nat) : String :=
  "Expected " ++ expected ++ ". Received: " ++
    (match received with
     | some b => toHex b
     | none => "undefined")

/-- Message thrown by the default branch of the dispatcher. -/
def unknownTypeMsg (received : Option Nat) : String :=
  "Unknown type byte: " ++
    (match received with
     | some b => toHex b
     | none => "undefined")

/-- Loop body of readBigInt. The source iterates an index i from 0 below
nBytes accumulating x times 256 plus stream[i] (a shift left by 8 bits and
an add); remaining counts the iterations still to run (nBytes minus i).
Indexing past the end of the stream yields undefined, and BigInt(undefined)
throws a TypeError. -/
def readBigIntGo (stream : Bytes) : Nat → Nat → Nat → JSOut Nat
  | 0, _, x => .ok x
  | remaining + 1, i, x =>
    match jsIdx stream i with
    | none => .thrown .typeError
    | some b => readBigIntGo stream remaining (i + 1) (x * 256 + b)

/-- readBigInt of the source: big-endian accumulation of nBytes bytes into
an arbitrary-precision integer. -/
def readBigInt (nBytes : Nat) (stream : Bytes) : JSOut Nat :=
  readBigIntGo stream nBytes 0 0

/-- The shared length/value reader (_parseBigInt of the source). The result
carries first the size (0 when the value sits inline in the low 5 bits of
the header byte, else the count of following bytes, 2 to the power
(len - 0x18)), then the decoded value, then the stream after the consumed
bytes. A length field above 0x1b fails naming the expected kind. -/
def _parseBigInt (schema : String) (stream : Bytes) : JSOut ((SizeBytes × Nat) × Bytes) :=
  let tag := jsIdx stream 0
  let stream1 := stream.drop 1
  let len := jsAnd tag 0x1f
  if ¬ len ≤ 0x1b then .thrown (.strErr (errMsg schema tag))
  else if len < 0x18 then .ok ((0, len), stream1)
  else
    let nBytes := 2 ^ (len - 0x18)
    (readBigInt nBytes stream1).bind fun v =>
      .ok ((nBytes, v), stream1.drop nBytes)

/-- Number(x) narrowing of the source (bigintToNum). Number conversion of a
bigint is exact below 2 to the power 53, and the decoded values the claims
exercise stay far below that, so the conversion is the identity here. -/
def bigintToNum (x : Nat) : Nat := x

/-- _mergeChunks of the source: allocates a buffer of the summed length and
copies every chunk at its running offset, i.e. concatenates the chunks in
encounter order. -/
def _mergeChunks (chunks : List Bytes) : Bytes := chunks.flatten

/-- Recorded size of a decoded byte or text string: either the width of the
definite length field, or one (chunk length, chunk width) pair per chunk of
an indefinite-length string (the TS type SizeBytes pairs list). -/
inductive StrSize where
  | definite (w : SizeBytes)
  | chunks (entries : List (Nat × SizeBytes))
deriving Repr, DecidableEq

/-- Decoded item tree (the TS CBORItem union). The float payload keeps the
raw big-endian bytes the DataView read (no claim inspects the IEEE-754
value they denote); the tstr payload keeps the merged buffer bytes (the
source stores their UTF-8 decoding, see textDecode). -/
inductive CBORItem where
  | uint (size : SizeBytes) (value : Nat)
  | nint (size : SizeBytes) (value : Int)
  | bstr (size : StrSize) (value : Bytes)
  | tstr (size : StrSize) (value : Bytes)
  | arr (size : Option SizeBytes) (value : List CBORItem)
  | map (size : Option SizeBytes) (value : List (CBORItem × CBORItem))
  | tagged (tag : Nat) (value : CBORItem)
  | boolean (value : Bool)
  | nullItem
  | undefinedItem
  | float (size : SizeBytes) (value : Bytes)
deriving Repr

/-- TextDecoder().decode of the source, abstracted: the default TextDecoder
never throws (invalid sequences become replacement characters) and no claim
inspects the decoded text, so the decoded value is kept as the raw merged
buffer. -/
def textDecode (b : Bytes) : Bytes := b

/-- _parseUInt of the source: read size and value, wrap as a uint item. -/
def _parseUInt (stream : Bytes) : JSOut (CBORItem × Bytes) :=
  (_parseBigInt "uint" stream).bind fun r =>
    .ok (.uint r.1.1 r.1.2, r.2)

/-- _parseNegInt of the source: read size and raw magnitude, then replace
the value by -1 minus the magnitude. -/
def _parseNegInt (stream : Bytes) : JSOut (CBORItem × Bytes) :=
  (_parseBigInt "nint" stream).bind fun r =>
    .ok (.nint r.1.1 (-1 - (r.1.2 : Int)), r.2)

/-- _parseFloat of the source. The half-precision marker 0xf9 throws the
fixed unsupported message before touching any further byte; 0xfa and 0xfb
read 4 or 8 payload bytes through a DataView (kept as raw bytes here), and
a read past the end of the buffer throws a RangeError. The default branch
(unreachable from parse) throws the fixed Unreachable message. -/
def _parseFloat (stream : Bytes) : JSOut (CBORItem × Bytes) :=
  match jsIdx stream 0 with
  | some 0xf9 => .thrown (.strErr "Half-precision floats are unsupported")
  | some 0xfa =>
    if 5 ≤ stream.length then .ok (.float 4 ((stream.drop 1).take 4), stream.drop 5)
    else .thrown .rangeError
  | some 0xfb =>
    if 9 ≤ stream.length then .ok (.float 8 ((stream.drop 1).take 8), stream.drop 9)
    else .thrown .rangeError
  | _ => .thrown (.strErr "Unreachable")

mutual

/-- Major-type dispatcher (parse of the source): switch on the high nibble
of the first byte; inside the 0xf0 family, switch on the low nibble, where
an unrecognized low nibble falls through to the same default branch as an
unknown high nibble. The source routes byte and text strings through the
thin wrappers _parseByteString and _parseTextString (defined after this
block); their bodies are inlined here so that the fuel argument decreases
structurally, the wrapping being only the packaging of the returned size
and buffer into a bstr or tstr item. -/
def parse (fuel : Nat) (stream : Bytes) : JSOut (CBORItem × Bytes) :=
  match fuel with
  | 0 => .timeout
  | fuel + 1 =>
    let hi := jsAnd (jsIdx stream 0) 0xf0
    if hi = 0x00 ∨ hi = 0x10 then _parseUInt stream
    else if hi = 0x20 ∨ hi = 0x30 then _parseNegInt stream
    else if hi = 0x40 ∨ hi = 0x50 then
      (__parseByteString fuel "bstr" stream).bind fun r =>
        .ok (.bstr r.1.1 r.1.2, r.2)
    else if hi = 0x60 ∨ hi = 0x70 then
      (__parseByteString fuel "tstr" stream).bind fun r =>
        .ok (.tstr r.1.1 (textDecode r.1.2), r.2)
    else if hi = 0x80 ∨ hi = 0x90 then _parseArray fuel stream
    else if hi = 0xa0 ∨ hi = 0xb0 then _parseMap fuel stream
    else if hi = 0xc0 ∨ hi = 0xd0 then _parseTagged fuel stream
    else if hi = 0xf0 then
      let lo := jsAnd (jsIdx stream 0) 0x0f
      if lo = 0x04 then .ok (.boolean false, stream.drop 1)
      else if lo = 0x05 then .ok (.boolean true, stream.drop 1)
      else if lo = 0x06 then .ok (.nullItem, stream.drop 1)
      else if lo = 0x07 then .ok (.undefinedItem, stream.drop 1)
      else if lo = 0x09 ∨ lo = 0x0a ∨ lo = 0x0b then _parseFloat stream
      else .thrown (.strErr (unknownTypeMsg (jsIdx stream 0)))
    else .thrown (.strErr (unknownTypeMsg (jsIdx stream 0)))
termination_by structural fuel

/-- __parseByteString of the source, returning the recorded size and the
buffer (the source wraps them in a bstr item at this point; here the
wrapping into bstr or tstr happens at the call sites). A length field that
is neither at most 0x1b nor the indefinite marker 0x1f fails naming the
schema; the definite branch reads the length and takes that many following
bytes verbatim (a JS slice, which silently clamps to the available bytes);
the indefinite branch runs the chunk loop and merges the chunks. -/
def __parseByteString (fuel : Nat) (schema : String) (stream : Bytes) :
    JSOut ((StrSize × Bytes) × Bytes) :=
  match fuel with
  | 0 => .timeout
  | fuel + 1 =>
    let tag := jsIdx stream 0
    let len := jsAnd tag 0x1f
    if ¬ (len ≤ 0x1b ∨ len = 0x1f) then .thrown (.strErr (errMsg schema tag))
    else if len = 0x1f then
      (__parseByteStringLoop fuel schema (stream.drop 1) [] []).bind fun r =>
        .ok ((.chunks r.1.2, _mergeChunks r.1.1), r.2)
    else
      (_parseBigInt schema stream).bind fun r =>
        let n_ := bigintToNum r.1.2
        .ok ((.definite r.1.1, r.2.take n_), r.2.drop n_)
termination_by structural fuel

/-- While loop of the indefinite branch of __parseByteString: parse chunks
until the head byte is the break marker 0xff. A chunk reported with a chunk
list as its size (an indefinite string nested inside the indefinite string)
is recorded as one definite chunk of the maximum width 8; any other chunk
is recorded with its own length and width. The loop leaves the break byte
in place (the source never slices it off, so the returned stream still
starts at 0xff). -/
def __parseByteStringLoop (fuel : Nat) (schema : String) (stream : Bytes)
    (chunks : List Bytes) (sizes : List (Nat × SizeBytes)) :
    JSOut ((List Bytes × List (Nat × SizeBytes)) × Bytes) :=
  match fuel with
  | 0 => .timeout
  | fuel + 1 =>
    if headIsBreak stream then .ok ((chunks, sizes), stream)
    else
      (__parseByteString fuel schema stream).bind fun r =>
        match r.1.1 with
        | .chunks _ =>
          __parseByteStringLoop fuel schema r.2 (chunks ++ [r.1.2])
            (sizes ++ [(r.1.2.length, 8)])
        | .definite w =>
          __parseByteStringLoop fuel schema r.2 (chunks ++ [r.1.2])
            (sizes ++ [(r.1.2.length, w)])
termination_by structural fuel

/-- _parseArray of the source. A length field that is neither at most 0x1b
nor 0x1f fails; the indefinite branch loops until the break byte (which it
leaves in place, as the source does); the definite branch reads the count
and decodes exactly that many items. -/
def _parseArray (fuel : Nat) (stream : Bytes) : JSOut (CBORItem × Bytes) :=
  match fuel with
  | 0 => .timeout
  | fuel + 1 =>
    let tag := jsIdx stream 0
    let len := jsAnd tag 0x1f
    if ¬ (len ≤ 0x1b ∨ len = 0x1f) then .thrown (.strErr (errMsg "array" tag))
    else if len = 0x1f then
      (_parseArrayLoopIndef fuel (stream.drop 1) []).bind fun r =>
        .ok (.arr none r.1, r.2)
    else
      (_parseBigInt "array" stream).bind fun r =>
        let n_ := bigintToNum r.1.2
        (_parseArrayLoopDef fuel n_ r.2 []).bind fun r2 =>
          .ok (.arr (some r.1.1) r2.1, r2.2)
termination_by structural fuel

/-- While loop of the indefinite branch of _parseArray: parse items until
the head byte is the break marker; the break byte is not consumed. -/
def _parseArrayLoopIndef (fuel : Nat) (stream : Bytes) (array : List CBORItem) :
    JSOut (List CBORItem × Bytes) :=
  match fuel with
  | 0 => .timeout
  | fuel + 1 =>
    if headIsBreak stream then .ok (array, stream)
    else
      (parse fuel stream).bind fun r =>
        _parseArrayLoopIndef fuel r.2 (array ++ [r.1])
termination_by structural fuel

/-- Counted loop of the definite branch of _parseArray: decode exactly
count items, appending each in stream order. -/
def _parseArrayLoopDef (fuel : Nat) (count : Nat) (stream : Bytes)
    (array : List CBORItem) : JSOut (List CBORItem × Bytes) :=
  match fuel, count with
  | _, 0 => .ok (array, stream)
  | 0, _ + 1 => .timeout
  | fuel + 1, count + 1 =>
    (parse fuel stream).bind fun r =>
      _parseArrayLoopDef fuel count r.2 (array ++ [r.1])
termination_by structural fuel

/-- _parseMap of the source: same shape as _parseArray with key/value pairs
in place of single items. -/
def _parseMap (fuel : Nat) (stream : Bytes) : JSOut (CBORItem × Bytes) :=
  match fuel with
  | 0 => .timeout
  | fuel + 1 =>
    let tag := jsIdx stream 0
    let len := jsAnd tag 0x1f
    if ¬ (len ≤ 0x1b ∨ len = 0x1f) then .thrown (.strErr (errMsg "map" tag))
    else if len = 0x1f then
      (_parseMapLoopIndef fuel (stream.drop 1) []).bind fun r =>
        .ok (.map none r.1, r.2)
    else
      (_parseBigInt "map" stream).bind fun r =>
        let n_ := bigintToNum r.1.2
        (_parseMapLoopDef fuel n_ r.2 []).bind fun r2 =>
          .ok (.map (some r.1.1) r2.1, r2.2)
termination_by structural fuel

/-- While loop of the indefinite branch of _parseMap: parse a key then a
value until the head byte is the break marker; the break byte is not
consumed. -/
def _parseMapLoopIndef (fuel : Nat) (stream : Bytes)
    (pairs : List (CBORItem × CBORItem)) : JSOut (List (CBORItem × CBORItem) × Bytes) :=
  match fuel with
  | 0 => .timeout
  | fuel + 1 =>
    if headIsBreak stream then .ok (pairs, stream)
    else
      (parse fuel stream).bind fun rk =>
        (parse fuel rk.2).bind fun rv =>
          _parseMapLoopIndef fuel rv.2 (pairs ++ [(rk.1, rv.1)])
termination_by structural fuel

/-- Counted loop of the definite branch of _parseMap: decode exactly count
key/value pairs, appending each in stream encounter order with no
reordering and no deduplication. -/
def _parseMapLoopDef (fuel : Nat) (count : Nat) (stream : Bytes)
    (pairs : List (CBORItem × CBORItem)) : JSOut (List (CBORItem × CBORItem) × Bytes) :=
  match fuel, count with
  | _, 0 => .ok (pairs, stream)
  | 0, _ + 1 => .timeout
  | fuel + 1, count + 1 =>
    (parse fuel stream).bind fun rk =>
      (parse fuel rk.2).bind fun rv =>
        _parseMapLoopDef fuel count rv.2 (pairs ++ [(rk.1, rv.1)])
termination_by structural fuel

/-- _parseTagged of the source: the low 5 bits of the header byte are the
tag number directly, and one following item is decoded as the payload. -/
def _parseTagged (fuel : Nat) (stream : Bytes) : JSOut (CBORItem × Bytes) :=
  match fuel with
  | 0 => .timeout
  | fuel + 1 =>
    let tag := jsIdx stream 0
    let tagValue := jsAnd tag 0x1f
    (parse fuel (stream.drop 1)).bind fun r =>
      .ok (.tagged tagValue r.1, r.2)
termination_by structural fuel

end

/-- _parseByteString of the source: the byte-string reader, wrapping the
size and buffer as a bstr item. -/
def _parseByteString (fuel : Nat) (stream : Bytes) : JSOut (CBORItem × Bytes) :=
  (__parseByteString fuel "bstr" stream).bind fun r =>
    .ok (.bstr r.1.1 r.1.2, r.2)

/-- _parseTextString of the source: the byte-string reader run with the
tstr schema, the merged buffer being UTF-8 decoded into the text value. -/
def _parseTextString (fuel : Nat) (stream : Bytes) : JSOut (CBORItem × Bytes) :=
  (__parseByteString fuel "tstr" stream).bind fun r =>
    .ok (.tstr r.1.1 (textDecode r.1.2), r.2)

/-!
Encoding-side definitions. These quantify the claims over all valid
encodings; they follow the words of the shared integer encoding of the
specification (the low 5 bits of the header byte hold the value itself for
values up to 23 at width 0, or the selector 0x18, 0x19, 0x1a, 0x1b followed
by 1, 2, 4 or 8 big-endian value bytes).
-/

/-- Big-endian byte decomposition: the k bytes of n, most significant
first, the encoding-side counterpart of readBigInt. -/
def beBytes : Nat → Nat → Bytes
  | 0, _ => []
  | k + 1, n => n / 256 ^ k :: beBytes k (n % 256 ^ k)

/-- Header of the shared integer encoding for major type mt, width w and
value n; none when the value does not fit the width or the width is not
one of 0, 1, 2, 4, 8. -/
def encodeHead (mt w n : Nat) : Option Bytes :=
  match w with
  | 0 => if n ≤ 23 then some [mt * 32 + n] else none
  | 1 => if n < 2 ^ 8 then some ((mt * 32 + 24) :: beBytes 1 n) else none
  | 2 => if n < 2 ^ 16 then some ((mt * 32 + 25) :: beBytes 2 n) else none
  | 4 => if n < 2 ^ 32 then some ((mt * 32 + 26) :: beBytes 4 n) else none
  | 8 => if n < 2 ^ 64 then some ((mt * 32 + 27) :: beBytes 8 n) else none
  | _ => none

/-- Minimal width of an unsigned value, per the spec: inline up to 23,
else the smallest of 1, 2, 4, 8 bytes that holds the value. -/
def minWidth (v : Nat) : Nat :=
  if v ≤ 23 then 0
  else if v < 2 ^ 8 then 1
  else if v < 2 ^ 16 then 2
  else if v < 2 ^ 32 then 4
  else 8

/-- Minimal-width encoding of an unsigned integer (major type 0). -/
def encodeUIntMin (v : Nat) : Bytes :=
  if v ≤ 23 then [v]
  else if v < 2 ^ 8 then 0x18 :: beBytes 1 v
  else if v < 2 ^ 16 then 0x19 :: beBytes 2 v
  else if v < 2 ^ 32 then 0x1a :: beBytes 4 v
  else 0x1b :: beBytes 8 v

/-- Definite-length byte-string chunk encoding: the major type 2 header for
the length of the chunk at width w, followed by the chunk bytes. -/
def encodeChunk (c : Bytes) (w : Nat) : Option Bytes :=
  (encodeHead 2 w c.length).map (fun hd => hd ++ c)

/-!
Helper lemmas.
-/

@[simp] theorem JSOut.bind_ok (a : α) (f : α → JSOut β) : (JSOut.ok a).bind f = f a := rfl

@[simp] theorem JSOut.bind_thrown (e : JSErr) (f : α → JSOut β) :
    (JSOut.thrown e).bind f = .thrown e := rfl

@[simp] theorem JSOut.bind_timeout (f : α → JSOut β) :
    (JSOut.timeout : JSOut α).bind f = .timeout := rfl

theorem land31 : ∀ b, b < 256 → b &&& 31 = b % 32 := by decide

theorem land240 : ∀ b, b < 256 → b &&& 240 = 16 * (b / 16) := by decide

@[simp] theorem length_beBytes (k : Nat) : ∀ n, (beBytes k n).length = k := by
  induction k with
  | zero => intro n; rfl
  | succ k ih => intro n; simp [beBytes, ih]

@[simp] theorem jsIdx_cons_zero (a : Nat) (l : Bytes) : jsIdx (a :: l) 0 = some a := by
  simp [jsIdx]

theorem headIsBreak_cons_ne {b : Nat} (t : Bytes) (hb : b ≠ 255) :
    headIsBreak (b :: t) = false := by
  unfold headIsBreak
  simp only [jsIdx_cons_zero]
  split
  · next heq => exact absurd (by injection heq) hb
  · rfl

theorem readBigIntGo_beBytes : ∀ (k n x : Nat) (pre rest : Bytes), n < 256 ^ k →
    readBigIntGo (pre ++ (beBytes k n ++ rest)) k pre.length x = .ok (x * 256 ^ k + n) := by
  intro k
  induction k with
  | zero =>
    intro n x pre rest h
    simp only [pow_zero, Nat.lt_one_iff] at h
    subst h
    simp [readBigIntGo, beBytes]
  | succ k ih =>
    intro n x pre rest h
    have hP : 0 < 256 ^ k := Nat.pos_pow_of_pos k (by omega)
    have hidx : jsIdx (pre ++ ((n / 256 ^ k :: beBytes k (n % 256 ^ k)) ++ rest)) pre.length
        = some (n / 256 ^ k) := by
      simp [jsIdx, List.getElem?_append_right (Nat.le_refl pre.length)]
    simp only [beBytes, readBigIntGo, hidx]
    have hre : pre ++ ((n / 256 ^ k :: beBytes k (n % 256 ^ k)) ++ rest)
        = (pre ++ [n / 256 ^ k]) ++ (beBytes k (n % 256 ^ k) ++ rest) := by simp
    have hlen : pre.length + 1 = (pre ++ [n / 256 ^ k]).length := by simp
    rw [hre, hlen, ih (n % 256 ^ k) (x * 256 + n / 256 ^ k) _ _ (Nat.mod_lt _ hP)]
    have hdm := Nat.div_add_mod n (256 ^ k)
    congr 1
    calc (x * 256 + n / 256 ^ k) * 256 ^ k + n % 256 ^ k
        = x * (256 ^ k * 256) + (256 ^ k * (n / 256 ^ k) + n % 256 ^ k) := by ring
      _ = x * 256 ^ (k + 1) + n := by rw [hdm, pow_succ]

theorem readBigInt_beBytes {k n : Nat} (rest : Bytes) (h : n < 256 ^ k) :
    readBigInt k (beBytes k n ++ rest) = .ok n := by
  have := readBigIntGo_beBytes k n 0 [] rest h
  simpa [readBigInt] using this

theorem encodeHead_cases {mt w n : Nat} {hd : Bytes} (h : encodeHead mt w n = some hd) :
    (w = 0 ∧ n ≤ 23 ∧ hd = [mt * 32 + n]) ∨
    (w = 1 ∧ n < 2 ^ 8 ∧ hd = (mt * 32 + 24) :: beBytes 1 n) ∨
    (w = 2 ∧ n < 2 ^ 16 ∧ hd = (mt * 32 + 25) :: beBytes 2 n) ∨
    (w = 4 ∧ n < 2 ^ 32 ∧ hd = (mt * 32 + 26) :: beBytes 4 n) ∨
    (w = 8 ∧ n < 2 ^ 64 ∧ hd = (mt * 32 + 27) :: beBytes 8 n) := by
  unfold encodeHead at h
  split at h <;> first
  | (split_ifs at h <;> simp_all)
  | simp_all

theorem encodeHead_head {mt w n : Nat} {hd : Bytes} (h : encodeHead mt w n = some hd) :
    ∃ b t, hd = b :: t ∧ mt * 32 ≤ b ∧ b < mt * 32 + 28 := by
  rcases encodeHead_cases h with ⟨hw, hn, hhd⟩ | ⟨hw, hn, hhd⟩ | ⟨hw, hn, hhd⟩ |
    ⟨hw, hn, hhd⟩ | ⟨hw, hn, hhd⟩ <;>
    exact ⟨_, _, hhd, by omega, by omega⟩

theorem _parseBigInt_encodeHead {mt w n : Nat} {hd : Bytes} (schema : String)
    (rest : Bytes) (hmt : mt < 8) (h : encodeHead mt w n = some hd) :
    _parseBigInt schema (hd ++ rest) = .ok ((w, n), rest) := by
  rcases encodeHead_cases h with ⟨hw, hn, hhd⟩ | ⟨hw, hn, hhd⟩ | ⟨hw, hn, hhd⟩ |
    ⟨hw, hn, hhd⟩ | ⟨hw, hn, hhd⟩ <;> subst hw <;> subst hhd
  · have hlen : (mt * 32 + n) &&& 31 = n := by
      rw [land31 _ (by omega)]; omega
    have h27 : n ≤ 27 := by omega
    have h24 : n < 24 := by omega
    simp [_parseBigInt, jsAnd, hlen, h27, h24]
  · have hlen : (mt * 32 + 24) &&& 31 = 24 := by
      rw [land31 _ (by omega)]; omega
    simp only [List.cons_append, _parseBigInt, jsIdx_cons_zero, jsAnd, hlen]
    norm_num
    rw [readBigInt_beBytes (k := 1) rest (by norm_num at hn ⊢; exact hn)]
    simp
  · have hlen : (mt * 32 + 25) &&& 31 = 25 := by
      rw [land31 _ (by omega)]; omega
    simp only [List.cons_append, _parseBigInt, jsIdx_cons_zero, jsAnd, hlen]
    norm_num
    rw [readBigInt_beBytes (k := 2) rest (by norm_num at hn ⊢; exact hn)]
    simp
  · have hlen : (mt * 32 + 26) &&& 31 = 26 := by
      rw [land31 _ (by omega)]; omega
    simp only [List.cons_append, _parseBigInt, jsIdx_cons_zero, jsAnd, hlen]
    norm_num
    rw [readBigInt_beBytes (k := 4) rest (by norm_num at hn ⊢; exact hn)]
    simp
  · have hlen : (mt * 32 + 27) &&& 31 = 27 := by
      rw [land31 _ (by omega)]; omega
    simp only [List.cons_append, _parseBigInt, jsIdx_cons_zero, jsAnd, hlen]
    norm_num
    rw [readBigInt_beBytes (k := 8) rest (by norm_num at hn ⊢; exact hn)]
    simp

theorem parse_dispatch_uint {s : Bytes} {b : Nat} (fuel : Nat)
    (hb : jsIdx s 0 = some b) (h256 : b < 256) (hmt : b / 32 = 0) :
    parse (fuel + 1) s = _parseUInt s := by
  have h240 : b &&& 240 = 16 * (b / 16) := land240 b h256
  have hc : b &&& 240 = 0 ∨ b &&& 240 = 16 := by rw [h240]; omega
  rcases hc with hc | hc <;> simp [parse, jsAnd, hb, hc]

theorem parse_dispatch_nint {s : Bytes} {b : Nat} (fuel : Nat)
    (hb : jsIdx s 0 = some b) (h256 : b < 256) (hmt : b / 32 = 1) :
    parse (fuel + 1) s = _parseNegInt s := by
  have h240 : b &&& 240 = 16 * (b / 16) := land240 b h256
  have hc : b &&& 240 = 32 ∨ b &&& 240 = 48 := by rw [h240]; omega
  rcases hc with hc | hc <;> simp [parse, jsAnd, hb, hc]

theorem parse_dispatch_bstr {s : Bytes} {b : Nat} (fuel : Nat)
    (hb : jsIdx s 0 = some b) (h256 : b < 256) (hmt : b / 32 = 2) :
    parse (fuel + 1) s = (__parseByteString fuel "bstr" s).bind fun r =>
      .ok (.bstr r.1.1 r.1.2, r.2) := by
  have h240 : b &&& 240 = 16 * (b / 16) := land240 b h256
  have hc : b &&& 240 = 64 ∨ b &&& 240 = 80 := by rw [h240]; omega
  rcases hc with hc | hc <;> simp [parse, jsAnd, hb, hc]

theorem parse_dispatch_map {s : Bytes} {b : Nat} (fuel : Nat)
    (hb : jsIdx s 0 = some b) (h256 : b < 256) (hmt : b / 32 = 5) :
    parse (fuel + 1) s = _parseMap fuel s := by
  have h240 : b &&& 240 = 16 * (b / 16) := land240 b h256
  have hc : b &&& 240 = 160 ∨ b &&& 240 = 176 := by rw [h240]; omega
  rcases hc with hc | hc <;> simp [parse, jsAnd, hb, hc]

theorem __parseByteString_definite {w n : Nat} {hd payload : Bytes} (schema : String)
    (rest : Bytes) (fuel : Nat) (h : encodeHead 2 w n = some hd) (hp : payload.length = n) :
    __parseByteString (fuel + 1) schema (hd ++ (payload ++ rest)) =
      .ok ((.definite w, payload), rest) := by
  obtain ⟨b, t, hhd, hb1, hb2⟩ := encodeHead_head h
  subst hhd
  have h256 : b < 256 := by omega
  have h31 : b &&& 31 = b % 32 := land31 b h256
  have hle : b &&& 31 ≤ 27 := by rw [h31]; omega
  have hne : ¬ b &&& 31 = 31 := by rw [h31]; omega
  have hbig := _parseBigInt_encodeHead schema (payload ++ rest) (by omega) h
  simp only [List.cons_append, __parseByteString, jsIdx_cons_zero, jsAnd, hle, hne]
  rw [show b :: (t ++ (payload ++ rest)) = (b :: t) ++ (payload ++ rest) by simp, hbig]
  simp [bigintToNum, List.take_left' hp, List.drop_left' hp]

theorem encodeHead_length {mt w n : Nat} {hd : Bytes} (h : encodeHead mt w n = some hd) :
    hd.length = 1 + w := by
  rcases encodeHead_cases h with ⟨hw, hn, hhd⟩ | ⟨hw, hn, hhd⟩ | ⟨hw, hn, hhd⟩ |
    ⟨hw, hn, hhd⟩ | ⟨hw, hn, hhd⟩ <;> subst hw <;> subst hhd <;> simp

theorem encodeUIntMin_eq {v : Nat} (h : v < 2 ^ 64) :
    encodeHead 0 (minWidth v) v = some (encodeUIntMin v) := by
  unfold minWidth encodeUIntMin
  split_ifs <;> simp_all [encodeHead]

theorem length_encodeUIntMin (v : Nat) : (encodeUIntMin v).length = 1 + minWidth v := by
  unfold minWidth encodeUIntMin
  split_ifs <;> simp

theorem land15 : ∀ b, b < 256 → b &&& 15 = b % 16 := by decide

theorem jsAnd_31 {v : Nat} (h : v < 256) : jsAnd (some v) 31 = v % 32 := by
  simp [jsAnd, land31 v h]

theorem jsAnd_240 {v : Nat} (h : v < 256) : jsAnd (some v) 240 = 16 * (v / 16) := by
  simp [jsAnd, land240 v h]

theorem jsAnd_15 {v : Nat} (h : v < 256) : jsAnd (some v) 15 = v % 16 := by
  simp [jsAnd, land15 v h]

theorem _parseMapLoopDef_zero (fuel : Nat) (s : Bytes) (acc : List (CBORItem × CBORItem)) :
    _parseMapLoopDef fuel 0 s acc = .ok (acc, s) := by
  cases fuel <;> rfl

theorem _parseMapLoopDef_timeout (count : Nat) (s : Bytes)
    (acc : List (CBORItem × CBORItem)) :
    _parseMapLoopDef 0 (count + 1) s acc = .timeout := rfl

theorem _parseMapLoopDef_succ (fuel count : Nat) (s : Bytes)
    (acc : List (CBORItem × CBORItem)) :
    _parseMapLoopDef (fuel + 1) (count + 1) s acc =
      (parse fuel s).bind fun rk =>
        (parse fuel rk.2).bind fun rv =>
          _parseMapLoopDef fuel count rv.2 (acc ++ [(rk.1, rv.1)]) := rfl

theorem _parseMapLoopDef_eq (fuel count : Nat) (s : Bytes)
    (acc : List (CBORItem × CBORItem)) :
    _parseMapLoopDef fuel count s acc =
      match fuel, count with
      | _, 0 => .ok (acc, s)
      | 0, _ + 1 => .timeout
      | fuel + 1, count + 1 =>
        (parse fuel s).bind fun rk =>
          (parse fuel rk.2).bind fun rv =>
            _parseMapLoopDef fuel count rv.2 (acc ++ [(rk.1, rv.1)]) := by
  cases fuel <;> cases count <;> rfl

theorem _parseArrayLoopDef_eq (fuel count : Nat) (s : Bytes) (acc : List CBORItem) :
    _parseArrayLoopDef fuel count s acc =
      match fuel, count with
      | _, 0 => .ok (acc, s)
      | 0, _ + 1 => .timeout
      | fuel + 1, count + 1 =>
        (parse fuel s).bind fun r =>
          _parseArrayLoopDef fuel count r.2 (acc ++ [r.1]) := by
  cases fuel <;> cases count <;> rfl

theorem _parseMapLoopDef_length : ∀ (count fuel : Nat) (s : Bytes)
    (acc pairs : List (CBORItem × CBORItem)) (s2 : Bytes),
    _parseMapLoopDef fuel count s acc = .ok (pairs, s2) →
    pairs.length = acc.length + count := by
  intro count
  induction count with
  | zero =>
    intro fuel s acc pairs s2 h
    rw [_parseMapLoopDef_zero] at h
    simp only [JSOut.ok.injEq, Prod.mk.injEq] at h
    rw [← h.1]
    simp
  | succ count ih =>
    intro fuel s acc pairs s2 h
    rcases fuel with _ | fuel
    · rw [_parseMapLoopDef_timeout] at h
      exact absurd h (by simp)
    · rw [_parseMapLoopDef_succ] at h
      cases hk : parse fuel s with
      | ok rk =>
        rw [hk] at h
        simp only [JSOut.bind_ok] at h
        cases hv : parse fuel rk.2 with
        | ok rv =>
          rw [hv] at h
          simp only [JSOut.bind_ok] at h
          have := ih fuel rv.2 (acc ++ [(rk.1, rv.1)]) pairs s2 h
          simp at this
          omega
        | thrown e => rw [hv] at h; simp at h
        | timeout => rw [hv] at h; simp at h
      | thrown e => rw [hk] at h; simp at h
      | timeout => rw [hk] at h; simp at h

theorem __parseByteStringLoop_succ (fuel : Nat) (schema : String) (s : Bytes)
    (chunks : List Bytes) (sizes : List (Nat × SizeBytes)) :
    __parseByteStringLoop (fuel + 1) schema s chunks sizes =
      if headIsBreak s then .ok ((chunks, sizes), s)
      else
        (__parseByteString fuel schema s).bind fun r =>
          match r.1.1 with
          | .chunks _ =>
            __parseByteStringLoop fuel schema r.2 (chunks ++ [r.1.2])
              (sizes ++ [(r.1.2.length, 8)])
          | .definite w =>
            __parseByteStringLoop fuel schema r.2 (chunks ++ [r.1.2])
              (sizes ++ [(r.1.2.length, w)]) := rfl

theorem __parseByteString_succ (fuel : Nat) (schema : String) (stream : Bytes) :
    __parseByteString (fuel + 1) schema stream =
      (let tag := jsIdx stream 0
      let len := jsAnd tag 0x1f
      if ¬ (len ≤ 0x1b ∨ len = 0x1f) then .thrown (.strErr (errMsg schema tag))
      else if len = 0x1f then
        (__parseByteStringLoop fuel schema (stream.drop 1) [] []).bind fun r =>
          .ok ((.chunks r.1.2, _mergeChunks r.1.1), r.2)
      else
        (_parseBigInt schema stream).bind fun r =>
          let n_ := bigintToNum r.1.2
          .ok ((.definite r.1.1, r.2.take n_), r.2.drop n_)) := rfl

theorem _parseMap_succ (fuel : Nat) (stream : Bytes) :
    _parseMap (fuel + 1) stream =
      (let tag := jsIdx stream 0
      let len := jsAnd tag 0x1f
      if ¬ (len ≤ 0x1b ∨ len = 0x1f) then .thrown (.strErr (errMsg "map" tag))
      else if len = 0x1f then
        (_parseMapLoopIndef fuel (stream.drop 1) []).bind fun r =>
          .ok (.map none r.1, r.2)
      else
        (_parseBigInt "map" stream).bind fun r =>
          let n_ := bigintToNum r.1.2
          (_parseMapLoopDef fuel n_ r.2 []).bind fun r2 =>
            .ok (.map (some r.1.1) r2.1, r2.2)) := rfl

/-!
Claim theorems.
-/

/-- C5: for every valid encoding of an unsigned integer v at its minimal
width w, decoding yields the item uint with size w and value v, consuming
exactly 1 + w bytes (the remaining slice is exactly the appended rest, and
the encoding is 1 + w bytes long). -/
theorem claim_C5_uint_minimal_width (fuel v : Nat) (rest : Bytes) (h : v < 2 ^ 64) :
    parse (fuel + 1) (encodeUIntMin v ++ rest) = .ok (.uint (minWidth v) v, rest)
    ∧ (encodeUIntMin v).length = 1 + minWidth v := by
  have he := encodeUIntMin_eq h
  obtain ⟨b, t, hbt, hb1, hb2⟩ := encodeHead_head he
  constructor
  · rw [show encodeUIntMin v ++ rest = b :: (t ++ rest) from by rw [hbt]; simp]
    have hb : jsIdx (b :: (t ++ rest)) 0 = some b := by simp
    rw [parse_dispatch_uint fuel hb (by omega) (by omega)]
    unfold _parseUInt
    rw [show b :: (t ++ rest) = (b :: t) ++ rest from by simp, ← hbt,
      _parseBigInt_encodeHead "uint" rest (by omega) he]
    rfl
  · exact length_encodeUIntMin v

/-- Witness for C5 at the concrete value 1000 (minimal width 2): the
encoding 0x19 0x03 0xe8 followed by one extra byte decodes to uint of size
2 and value 1000, leaving exactly that extra byte. -/
theorem claim_C5_uint_minimal_width_witness :
    parse 1 (encodeUIntMin 1000 ++ [0x07]) = .ok (.uint (minWidth 1000) 1000, [0x07])
    ∧ (encodeUIntMin 1000).length = 1 + minWidth 1000 :=
  claim_C5_uint_minimal_width 0 1000 [0x07] (by norm_num)

/-- C7: for every valid encoding of a negative integer whose raw encoded
magnitude is m (any width w the magnitude fits), decoding yields the item
nint with size w and value -1 - m. -/
theorem claim_C7_negint_value (fuel w m : Nat) (hd rest : Bytes)
    (h : encodeHead 1 w m = some hd) :
    parse (fuel + 1) (hd ++ rest) = .ok (.nint w (-1 - (m : Int)), rest) := by
  obtain ⟨b, t, hbt, hb1, hb2⟩ := encodeHead_head h
  rw [show hd ++ rest = b :: (t ++ rest) from by rw [hbt]; simp]
  have hb : jsIdx (b :: (t ++ rest)) 0 = some b := by simp
  rw [parse_dispatch_nint fuel hb (by omega) (by omega)]
  unfold _parseNegInt
  rw [show b :: (t ++ rest) = (b :: t) ++ rest from by simp, ← hbt,
    _parseBigInt_encodeHead "nint" rest (by omega) h]
  rfl

/-- Witness for C7 at magnitude 99 encoded at width 1 (bytes 0x38 0x63):
the decoded value is -100. -/
theorem claim_C7_negint_value_witness :
    parse 1 ([0x38, 0x63] ++ []) = .ok (.nint 1 (-1 - (99 : Int)), []) :=
  claim_C7_negint_value 0 1 99 [0x38, 0x63] [] (by norm_num [encodeHead, beBytes])

/-- C3: for every valid definite-length byte-string encoding of declared
length n at width w, decoding yields a bstr item whose buffer is exactly
the n payload bytes and whose recorded size is the width w of the length
field, consuming exactly (1 + w) + n bytes: the remaining slice is exactly
the appended rest, and the header is 1 + w bytes long. -/
theorem claim_C3_definite_bstr_roundtrip (fuel w n : Nat) (hd payload rest : Bytes)
    (h : encodeHead 2 w n = some hd) (hp : payload.length = n) :
    parse (fuel + 2) (hd ++ (payload ++ rest)) = .ok (.bstr (.definite w) payload, rest)
    ∧ hd.length = 1 + w := by
  obtain ⟨b, t, hbt, hb1, hb2⟩ := encodeHead_head h
  constructor
  · rw [show hd ++ (payload ++ rest) = b :: (t ++ (payload ++ rest)) from by rw [hbt]; simp]
    have hb : jsIdx (b :: (t ++ (payload ++ rest))) 0 = some b := by simp
    rw [show fuel + 2 = (fuel + 1) + 1 from rfl]
    rw [parse_dispatch_bstr (fuel + 1) hb (by omega) (by omega)]
    rw [show b :: (t ++ (payload ++ rest)) = (b :: t) ++ (payload ++ rest) from by simp, ← hbt,
      __parseByteString_definite "bstr" rest fuel h hp]
    rfl
  · exact encodeHead_length h

/-- Witness for C3: a byte string of length 2 at width 1 (bytes 0x58 0x02
0xaa 0xbb) followed by one extra byte decodes to the 2-byte buffer with
recorded size 1, leaving exactly the extra byte; the header is 2 bytes. -/
theorem claim_C3_definite_bstr_roundtrip_witness :
    parse 2 ([0x58, 0x02] ++ ([0xaa, 0xbb] ++ [0x99]))
      = .ok (.bstr (.definite 1) [0xaa, 0xbb], [0x99])
    ∧ ([0x58, 0x02] : Bytes).length = 1 + 1 :=
  claim_C3_definite_bstr_roundtrip 0 1 2 [0x58, 0x02] [0xaa, 0xbb] [0x99]
    (by norm_num [encodeHead, beBytes]) (by norm_num)

/-- C1 (divergence witness): decoding the empty indefinite array 0x9f 0xff
(and the empty indefinite map 0xbf 0xff) succeeds with size null and an
empty value, but the returned remaining slice still starts AT the break
byte 0xff: the loops of _parseArray and _parseMap stop at the break marker
without slicing it off, so only 1 byte is consumed, not the 2 bytes the
specification requires. -/
theorem claim_C1_break_byte_not_consumed :
    parse 3 [0x9f, 0xff] = .ok (.arr none [], [0xff])
    ∧ parse 3 [0xbf, 0xff] = .ok (.map none [], [0xff]) := by
  constructor <;>
    simp +decide [parse, _parseArray, _parseArrayLoopIndef, _parseMap,
      _parseMapLoopIndef, jsAnd_31, jsAnd_240, jsIdx, headIsBreak]

/-- C2 (divergence witness): a definite byte string declaring length 2 with
only 1 payload byte (0x42 0xaa) decodes silently to a 1-byte buffer and an
empty remainder, because the JS slice clamps to the available bytes; no
truncated-stream error exists in the code. A truncated length field (0x18
with no following byte) throws, but it throws the incidental TypeError of
BigInt(undefined), not a distinct truncated-stream failure. -/
theorem claim_C2_truncation_not_detected :
    parse 2 [0x42, 0xaa] = .ok (.bstr (.definite 0) [0xaa], [])
    ∧ parse 1 [0x18] = .thrown .typeError := by
  constructor
  · simp +decide [parse, __parseByteString, _parseBigInt, jsAnd_31, jsAnd_240,
      jsIdx, bigintToNum]
  · simp +decide [parse, _parseUInt, _parseBigInt, jsAnd_31, jsAnd_240, jsIdx,
      readBigInt, readBigIntGo]

/-- C9: any input starting with the half-precision marker 0xf9 fails with
the fixed unsupported message, whatever bytes follow; and that message is
distinct from every message the malformed-input error helper can produce
and from every unknown-type message. -/
theorem claim_C9_half_float_unsupported :
    (∀ fuel : Nat, ∀ rest : Bytes, parse (fuel + 1) (0xf9 :: rest)
      = .thrown (.strErr "Half-precision floats are unsupported"))
    ∧ (∀ (schema : String) (received : Option Nat),
      errMsg schema received ≠ "Half-precision floats are unsupported")
    ∧ (∀ received : Option Nat,
      unknownTypeMsg received ≠ "Half-precision floats are unsupported") := by
  refine ⟨?_, ?_, ?_⟩
  · intro fuel rest
    simp +decide [parse, _parseFloat, jsAnd_240, jsAnd_15, jsIdx]
  · intro schema received h
    have h2 := congrArg String.data h
    simp only [errMsg, String.data_append] at h2
    simp +decide at h2
  · intro received h
    have h2 := congrArg String.data h
    simp only [unknownTypeMsg, String.data_append] at h2
    simp +decide at h2

/-- Witness for C9: the single byte 0xf9 fails with the unsupported
message, and the malformed-input message for a bstr with byte 0x5c is not
that message. -/
theorem claim_C9_half_float_unsupported_witness :
    parse 1 [0xf9] = .thrown (.strErr "Half-precision floats are unsupported")
    ∧ errMsg "bstr" (some 0x5c) ≠ "Half-precision floats are unsupported" :=
  ⟨claim_C9_half_float_unsupported.1 0 [],
    claim_C9_half_float_unsupported.2.1 "bstr" (some 0x5c)⟩

/-- C10: any first byte with high nibble 0xf and a low nibble outside the
recognized set 0x4, 0x5, 0x6, 0x7, 0x9, 0xa, 0xb (for example 0xf0, 0xf8 or
0xff) makes parse throw the same unknown-type-byte error used for unknown
major types, carrying the offending byte in hex, with the trailing bytes
untouched: the inner simple-value switch falls through to the default
branch of the dispatcher. -/
theorem claim_C10_simple_value_fallthrough (fuel b : Nat) (rest : Bytes)
    (hb : b < 256) (hhi : b &&& 0xf0 = 0xf0)
    (hlo : ¬ (b &&& 0x0f = 0x04 ∨ b &&& 0x0f = 0x05 ∨ b &&& 0x0f = 0x06 ∨
      b &&& 0x0f = 0x07 ∨ b &&& 0x0f = 0x09 ∨ b &&& 0x0f = 0x0a ∨ b &&& 0x0f = 0x0b)) :
    parse (fuel + 1) (b :: rest) = .thrown (.strErr ("Unknown type byte: " ++ toHex b)) := by
  have h240 := land240 b hb
  have hge : 240 ≤ b := by
    have h16 : 16 * (b / 16) = 240 := by rw [← h240]; exact hhi
    omega
  interval_cases b <;> first
    | exact absurd (by decide) hlo
    | simp +decide [parse, _parseFloat, jsAnd_240, jsAnd_15, jsAnd_31, jsIdx, unknownTypeMsg]

/-- Witness for C10 at byte 0xf8: the single byte throws the unknown-type
error naming f8. -/
theorem claim_C10_simple_value_fallthrough_witness :
    parse 1 [0xf8] = .thrown (.strErr ("Unknown type byte: " ++ toHex 0xf8)) :=
  claim_C10_simple_value_fallthrough 0 0xf8 [] (by norm_num) (by decide) (by decide)

/-- C4: a chunk of an indefinite string that is itself reported as
indefinite (its recorded size is a chunk list) does not make the reader
fail: the chunk loop records its merged buffer as one definite chunk of
width 8 and goes on; concretely, an indefinite byte (or text) string whose
first chunk is itself an indefinite string still decodes to a bstr (tstr)
item with that flattened (length, 8) entry. -/
theorem claim_C4_nested_indefinite_flattened :
    (∀ (fuel : Nat) (schema : String) (s s2 : Bytes) (cs : List (Nat × SizeBytes))
      (buf : Bytes) (chunks : List Bytes) (sizes : List (Nat × SizeBytes)),
      headIsBreak s = false →
      __parseByteString fuel schema s = .ok ((.chunks cs, buf), s2) →
      __parseByteStringLoop (fuel + 1) schema s chunks sizes
        = __parseByteStringLoop fuel schema s2 (chunks ++ [buf])
            (sizes ++ [(buf.length, 8)]))
    ∧ parse 6 [0x5f, 0x5f, 0x41, 0xaa, 0xff, 0xff]
        = .ok (.bstr (.chunks [(1, 8)]) [0xaa], [0xff, 0xff])
    ∧ parse 6 [0x7f, 0x7f, 0x61, 0x61, 0xff, 0xff]
        = .ok (.tstr (.chunks [(1, 8)]) [0x61], [0xff, 0xff]) := by
  refine ⟨?_, ?_, ?_⟩
  · intro fuel schema s s2 cs buf chunks sizes hbr hok
    rw [__parseByteStringLoop_succ, hbr, hok]
    simp
  · simp +decide [parse, __parseByteString, __parseByteStringLoop, _parseBigInt,
      jsAnd_31, jsAnd_240, jsIdx, headIsBreak, bigintToNum, _mergeChunks,
      readBigInt, readBigIntGo]
  · simp +decide [parse, __parseByteString, __parseByteStringLoop, _parseBigInt,
      jsAnd_31, jsAnd_240, jsIdx, headIsBreak, bigintToNum, _mergeChunks,
      readBigInt, readBigIntGo, textDecode]

/-- Witness for C4: the inner indefinite byte string 0x5f 0x41 0xaa 0xff
parses to a chunk-list-sized buffer, and one step of the outer chunk loop
on it records exactly (1, 8) and continues past the chunk. -/
theorem claim_C4_nested_indefinite_flattened_witness :
    __parseByteStringLoop 4 "bstr" [0x5f, 0x41, 0xaa, 0xff] [] []
      = __parseByteStringLoop 3 "bstr" [0xff] [[0xaa]] [(1, 8)] :=
  claim_C4_nested_indefinite_flattened.1 3 "bstr" [0x5f, 0x41, 0xaa, 0xff] [0xff]
    [(1, 0)] [0xaa] [] [] (by decide)
    (by simp +decide [__parseByteString, __parseByteStringLoop, _parseBigInt,
      jsAnd_31, jsIdx, headIsBreak, bigintToNum, _mergeChunks])

/-- C8: a definite-length map with declared entry count n decodes (whenever
it decodes at all) to a map item holding exactly n key/value pairs, and the
pairs appear in stream encounter order with no reordering and no
deduplication: concretely, the 2-entry map with keys 2 then 1 (key1 greater
than key2) keeps that order, and the 2-entry map with the duplicate key 1
keeps both pairs. -/
theorem claim_C8_definite_map_order :
    (∀ (fuel w n : Nat) (hd body : Bytes) (item : CBORItem) (s2 : Bytes),
      encodeHead 5 w n = some hd →
      parse (fuel + 2) (hd ++ body) = .ok (item, s2) →
      ∃ pairs, item = .map (some w) pairs ∧ pairs.length = n)
    ∧ parse 5 [0xa2, 0x02, 0x0c, 0x01, 0x0d]
        = .ok (.map (some 0) [(.uint 0 2, .uint 0 12), (.uint 0 1, .uint 0 13)], [])
    ∧ parse 5 [0xa2, 0x01, 0x0c, 0x01, 0x0d]
        = .ok (.map (some 0) [(.uint 0 1, .uint 0 12), (.uint 0 1, .uint 0 13)], []) := by
  refine ⟨?_, ?_, ?_⟩
  · intro fuel w n hd body item s2 hh hp
    obtain ⟨b, t, hbt, hb1, hb2⟩ := encodeHead_head hh
    rw [show hd ++ body = b :: (t ++ body) from by rw [hbt]; simp] at hp
    have hb : jsIdx (b :: (t ++ body)) 0 = some b := by simp
    rw [show fuel + 2 = (fuel + 1) + 1 from rfl,
      parse_dispatch_map (fuel + 1) hb (by omega) (by omega)] at hp
    have h31 : b &&& 31 = b % 32 := land31 b (by omega)
    have hle : b &&& 31 ≤ 27 := by rw [h31]; omega
    have hne : ¬ b &&& 31 = 31 := by rw [h31]; omega
    have hbig : _parseBigInt "map" (b :: (t ++ body)) = .ok ((w, n), body) := by
      rw [show b :: (t ++ body) = hd ++ body from by rw [hbt]; simp]
      exact _parseBigInt_encodeHead "map" body (by omega) hh
    rw [_parseMap_succ] at hp
    simp only [jsAnd, hb, hbig, JSOut.bind_ok, bigintToNum] at hp
    rw [if_neg (by simp [hle]), if_neg hne] at hp
    cases hld : _parseMapLoopDef fuel n body [] with
    | ok r2 =>
      obtain ⟨pairs, s3⟩ := r2
      rw [hld] at hp
      simp only [JSOut.bind_ok, JSOut.ok.injEq, Prod.mk.injEq] at hp
      refine ⟨pairs, hp.1.symm, ?_⟩
      have := _parseMapLoopDef_length n fuel body [] pairs s3 hld
      simpa using this
    | thrown e => rw [hld] at hp; simp at hp
    | timeout => rw [hld] at hp; simp at hp
  · rfl
  · rfl

/-- Witness for C8: applying the count theorem to the concrete 2-entry map
0xa2 0x02 0x0c 0x01 0x0d yields a pair list of length exactly 2. -/
theorem claim_C8_definite_map_order_witness :
    ∃ pairs, (CBORItem.map (some 0) [(.uint 0 2, .uint 0 12), (.uint 0 1, .uint 0 13)])
        = .map (some 0) pairs ∧ pairs.length = 2 :=
  claim_C8_definite_map_order.1 3 0 2 [0xa2] [0x02, 0x0c, 0x01, 0x0d]
    (.map (some 0) [(.uint 0 2, .uint 0 12), (.uint 0 1, .uint 0 13)]) []
    (by norm_num [encodeHead]) claim_C8_definite_map_order.2.1

theorem __parseByteStringLoop_chunks :
    ∀ (cs : List (Bytes × Nat)) (encs : List Bytes) (extra : Nat) (rest : Bytes)
      (chunks : List Bytes) (sizes : List (Nat × SizeBytes)),
    cs.mapM (fun p => encodeChunk p.1 p.2) = some encs →
    __parseByteStringLoop (cs.length + 1 + extra) "bstr"
        (encs.flatten ++ (255 :: rest)) chunks sizes
      = .ok ((chunks ++ cs.map Prod.fst,
          sizes ++ cs.map (fun p => (p.1.length, p.2))), 255 :: rest) := by
  intro cs
  induction cs with
  | nil =>
    intro encs extra rest chunks sizes h
    simp only [List.mapM_nil, Option.pure_def, Option.some.injEq] at h
    subst h
    rw [show ([] : List (Bytes × Nat)).length + 1 + extra = extra + 1 from by
      simp only [List.length_nil]; omega,
      __parseByteStringLoop_succ]
    simp [headIsBreak]
  | cons p cs ih =>
    obtain ⟨c, w⟩ := p
    intro encs extra rest chunks sizes h
    rw [List.mapM_cons] at h
    cases he : encodeChunk c w with
    | none => rw [he] at h; simp at h
    | some e =>
      rw [he] at h
      cases hes : List.mapM (fun p => encodeChunk p.1 p.2) cs with
      | none => rw [hes] at h; simp at h
      | some es =>
        rw [hes] at h
        simp at h
        subst h
        unfold encodeChunk at he
        cases hhd : encodeHead 2 w c.length with
        | none => rw [hhd] at he; simp at he
        | some hd =>
          rw [hhd] at he
          simp at he
          subst he
          obtain ⟨b, t, hbt, hb1, hb2⟩ := encodeHead_head hhd
          rw [show ((hd ++ c) :: es).flatten ++ (255 :: rest)
              = b :: (t ++ (c ++ (es.flatten ++ (255 :: rest)))) from by rw [hbt]; simp]
          rw [show ((c, w) :: cs).length + 1 + extra = (cs.length + 1 + extra) + 1 from by
            simp only [List.length_cons]; omega]
          rw [__parseByteStringLoop_succ]
          rw [headIsBreak_cons_ne _ (by omega)]
          rw [show b :: (t ++ (c ++ (es.flatten ++ (255 :: rest))))
              = hd ++ (c ++ (es.flatten ++ (255 :: rest))) from by rw [hbt]; simp]
          rw [show cs.length + 1 + extra = (cs.length + extra) + 1 from by omega]
          rw [__parseByteString_definite "bstr" (es.flatten ++ (255 :: rest))
            (cs.length + extra) hhd rfl]
          simp only [JSOut.bind_ok]
          rw [show (cs.length + extra) + 1 = cs.length + 1 + extra from by omega]
          rw [ih es extra rest (chunks ++ [c]) (sizes ++ [(c.length, w)]) hes]
          simp

/-- C6: an indefinite-length byte string made of definite-length chunks
c1, ..., ck followed by the break byte decodes to a buffer equal to the
in-order concatenation of the chunks, with one (length, width) entry per
chunk matching that chunk's byte length and encoding width; and the total
buffer length equals the sum of the recorded chunk lengths. (The break
byte itself is left in the remaining slice, as _parseArray and company
never consume it; the claim only concerns the buffer and the size list.) -/
theorem claim_C6_indefinite_chunks_concat (cs : List (Bytes × Nat)) (encs : List Bytes)
    (extra : Nat) (rest : Bytes)
    (h : cs.mapM (fun p => encodeChunk p.1 p.2) = some encs) :
    parse (cs.length + 3 + extra) ((0x5f : Nat) :: (encs.flatten ++ (0xff :: rest)))
      = .ok (.bstr (.chunks (cs.map fun p => (p.1.length, p.2)))
          ((cs.map Prod.fst).flatten), 0xff :: rest)
    ∧ ((cs.map fun p => (p.1.length, p.2)).map Prod.fst).sum
        = ((cs.map Prod.fst).flatten).length := by
  constructor
  · have hb : jsIdx ((0x5f : Nat) :: (encs.flatten ++ (0xff :: rest))) 0 = some 0x5f := by
      simp
    rw [show cs.length + 3 + extra = (cs.length + 2 + extra) + 1 from by omega,
      parse_dispatch_bstr (cs.length + 2 + extra) hb (by norm_num) (by norm_num)]
    rw [show cs.length + 2 + extra = (cs.length + 1 + extra) + 1 from by omega,
      __parseByteString_succ]
    have h95 : jsAnd (some (0x5f : Nat)) 0x1f = 31 := by decide
    rw [hb]
    simp only [h95]
    norm_num
    rw [__parseByteStringLoop_chunks cs encs extra rest [] [] h]
    simp [_mergeChunks]
  · simp [List.length_flatten, List.map_map, Function.comp_def]

/-- Witness for C6 with two chunks, 0xaa and 0xbb 0xcc, both width 0: the
stream 0x5f 0x41 0xaa 0x42 0xbb 0xcc 0xff 0x07 decodes to the buffer
0xaa 0xbb 0xcc with size entries (1, 0) and (2, 0), and 1 + 2 is the
buffer length. -/
theorem claim_C6_indefinite_chunks_concat_witness :
    parse (([([0xaa], 0), ([0xbb, 0xcc], 0)] : List (Bytes × Nat)).length + 3 + 0)
        ((0x5f : Nat) :: (([[0x41, 0xaa], [0x42, 0xbb, 0xcc]] : List Bytes).flatten
          ++ (0xff :: [0x07])))
      = .ok (.bstr (.chunks ([([0xaa], 0), ([0xbb, 0xcc], 0)].map
            fun p => (p.1.length, p.2)))
          (([([0xaa], 0), ([0xbb, 0xcc], 0)].map Prod.fst).flatten), 0xff :: [0x07])
    ∧ (([([0xaa], 0), ([0xbb, 0xcc], 0)].map fun p => (p.1.length, p.2)).map Prod.fst).sum
        = (([([0xaa], 0), ([0xbb, 0xcc], 0)].map Prod.fst).flatten).length :=
  claim_C6_indefinite_chunks_concat [([0xaa], 0), ([0xbb, 0xcc], 0)]
    [[0x41, 0xaa], [0x42, 0xbb, 0xcc]] 0 [0x07] (by decide)
